import Mathlib

/-!
Verification of the connection-pool / query-cache / query-analyzer core of
the Python-Database-Optimization repository, as a shallow embedding.

Time (`time.time()`) is threaded explicitly as a parameter (`Nat` for the
pool, `Rat` for the analyzer).  The blocking wait of `Queue.get(timeout)`
is modelled sequentially: it yields the front of the queue when one is
available and raises `Empty` otherwise.  Python exceptions are modelled by
`Except` / `Option` results.  The md5 digest of `_generate_key` is modelled
by the canonical pair it hashes (normalised query text plus parameter
sequence); the code relies on the digest being injective on that pair.
Closing an underlying sqlite connection is recorded by appending the
handle's id to a `closed` ledger, so that "the underlying connection was
closed" is observable in the state.
-/

namespace DBOpt

/-! ## Connection pool (src/connection/connection_pool.py) -/

/-- Embedding of `PooledConnection`: `id` stands for Python object
identity (`conn in self.in_use` compares identities), `created_at` is the
`time.time()` captured at construction, `in_use` is the busy flag. -/
structure PooledConnection where
  id : Nat
  created_at : Nat
  in_use : Bool
deriving DecidableEq

/-- Embedding of `PooledConnection.is_expired`:
`time.time() - self.created_at > max_age`. -/
def PooledConnection.is_expired (conn : PooledConnection) (now max_age : Nat) : Bool :=
  now - conn.created_at > max_age

/-- Embedding of `ConnectionPool` state.  `available` is the FIFO queue
(head = next `get`), `in_use` the list of busy handles, `closed` the ledger
of ids whose underlying sqlite connection was closed. -/
structure ConnectionPool where
  min_connections : Nat
  max_connections : Nat
  max_age : Nat
  available : List PooledConnection
  in_use : List PooledConnection
  closed : List Nat
  total_created : Nat
  total_requests : Nat
  total_hits : Nat
  total_misses : Nat
deriving DecidableEq

/-- Embedding of `ConnectionPool._create_connection`: a fresh handle whose
identity is the value of the `total_created` counter, which then
increments. -/
def ConnectionPool.create_connection (p : ConnectionPool) (now : Nat) :
    PooledConnection × ConnectionPool :=
  ({ id := p.total_created, created_at := now, in_use := false },
   { p with total_created := p.total_created + 1 })

/-- Embedding of `ConnectionPool.__init__` followed by `_initialize_pool`:
`min_connections` handles are created and queued. -/
def ConnectionPool.fresh (minc maxc max_age now : Nat) : ConnectionPool :=
  { min_connections := minc
    max_connections := maxc
    max_age := max_age
    available := (List.range minc).map fun i => { id := i, created_at := now, in_use := false }
    in_use := []
    closed := []
    total_created := minc
    total_requests := 0
    total_hits := 0
    total_misses := 0 }

/-- Failure taxonomy of `get_connection`: the `TimeoutError("No available
connections in pool")` raised when the pool is exhausted.  It is a distinct
constructor, not shared with any query-execution failure. -/
inductive PoolError where
  | poolExhausted
deriving DecidableEq

/-- Embedding of `ConnectionPool.get_connection`.  Sequentially,
`self.available.get(timeout=...)` returns the queue front when the queue is
nonempty and raises `Empty` after the timeout otherwise. -/
def ConnectionPool.get_connection (p : ConnectionPool) (now : Nat) :
    Except PoolError PooledConnection × ConnectionPool :=
  let p := { p with total_requests := p.total_requests + 1 }
  match p.available with
  | conn :: rest =>
      if conn.is_expired now p.max_age then
        let res := ConnectionPool.create_connection
          { p with available := rest, closed := p.closed ++ [conn.id] } now
        let conn' := { res.1 with in_use := true }
        (Except.ok conn',
         { res.2 with
             total_misses := res.2.total_misses + 1
             in_use := res.2.in_use ++ [conn'] })
      else
        let conn' := { conn with in_use := true }
        (Except.ok conn',
         { p with
             available := rest
             total_hits := p.total_hits + 1
             in_use := p.in_use ++ [conn'] })
  | [] =>
      if p.available.length + p.in_use.length < p.max_connections then
        let res := ConnectionPool.create_connection p now
        let conn' := { res.1 with in_use := true }
        (Except.ok conn',
         { res.2 with
             in_use := res.2.in_use ++ [conn']
             total_misses := res.2.total_misses + 1 })
      else
        (Except.error PoolError.poolExhausted, p)

/-- Embedding of `list.remove(x)` on the `in_use` list: drop the first
handle with the given identity. -/
def removeFirst (l : List PooledConnection) (i : Nat) : List PooledConnection :=
  match l with
  | [] => []
  | c :: cs => if c.id = i then cs else c :: removeFirst cs i

/-- Embedding of `ConnectionPool.release_connection`: a no-op unless the
handle is in `in_use`; otherwise remove it, clear the busy flag, and
re-queue it.  `available.put_nowait` raises `Full` exactly when the queue
is full in Python's sense, `0 < maxsize ∧ maxsize ≤ qsize` — a
`Queue(maxsize=0)` is unbounded and never raises — and only then is the
underlying connection closed instead of re-queued. -/
def ConnectionPool.release_connection (p : ConnectionPool) (conn : PooledConnection) :
    ConnectionPool :=
  if p.in_use.any (fun c => c.id = conn.id) then
    let p' := { p with in_use := removeFirst p.in_use conn.id }
    let conn' := { conn with in_use := false }
    if 0 < p'.max_connections ∧ p'.max_connections ≤ p'.available.length then
      { p' with closed := p'.closed ++ [conn.id] }
    else
      { p' with available := p'.available ++ [conn'] }
  else
    p

/-- Embedding of `PooledConnection.close`: it only calls
`self.pool.release_connection(self)`. -/
def PooledConnection.close (conn : PooledConnection) (p : ConnectionPool) : ConnectionPool :=
  p.release_connection conn

/-- One observable call on the pool: an acquire at some wall-clock time, or
a release of some handle. -/
inductive PoolStep where
  | acquire (now : Nat)
  | release (conn : PooledConnection)

/-- State transition of one pool call (the acquire's result value is
dropped; only the state evolves). -/
def ConnectionPool.step (p : ConnectionPool) : PoolStep → ConnectionPool
  | PoolStep.acquire now => (p.get_connection now).2
  | PoolStep.release conn => p.release_connection conn

/-- A sequence of pool calls. -/
def ConnectionPool.run (p : ConnectionPool) (steps : List PoolStep) : ConnectionPool :=
  steps.foldl ConnectionPool.step p

/-- The capacity invariant of the pool. -/
def ConnectionPool.inv (p : ConnectionPool) : Prop :=
  p.available.length + p.in_use.length ≤ p.max_connections

lemma removeFirst_length_le (l : List PooledConnection) (i : Nat) :
    (removeFirst l i).length ≤ l.length := by
  induction l with
  | nil => simp [removeFirst]
  | cons c cs ih =>
      simp only [removeFirst]
      split
      · simp
      · simpa using Nat.succ_le_succ ih

lemma removeFirst_length_of_any (l : List PooledConnection) (i : Nat)
    (h : l.any (fun c => c.id = i) = true) :
    (removeFirst l i).length + 1 = l.length := by
  induction l with
  | nil => simp at h
  | cons c cs ih =>
      by_cases hc : c.id = i
      · simp [removeFirst, hc]
      · simp only [List.any_cons, decide_eq_true_eq, Bool.or_eq_true] at h
        rcases h with h | h
        · exact absurd h hc
        · simp [removeFirst, hc, ih h]

lemma ConnectionPool.get_connection_expired (p : ConnectionPool)
    (conn : PooledConnection) (rest : List PooledConnection) (now : Nat)
    (hav : p.available = conn :: rest)
    (hexp : conn.is_expired now p.max_age = true) :
    p.get_connection now =
      (Except.ok { id := p.total_created, created_at := now, in_use := true },
       { p with
           available := rest
           in_use := p.in_use ++ [{ id := p.total_created, created_at := now, in_use := true }]
           closed := p.closed ++ [conn.id]
           total_created := p.total_created + 1
           total_requests := p.total_requests + 1
           total_misses := p.total_misses + 1 }) := by
  simp [ConnectionPool.get_connection, hav, hexp, ConnectionPool.create_connection]

lemma ConnectionPool.get_connection_reuse (p : ConnectionPool)
    (conn : PooledConnection) (rest : List PooledConnection) (now : Nat)
    (hav : p.available = conn :: rest)
    (hexp : conn.is_expired now p.max_age = false) :
    p.get_connection now =
      (Except.ok { conn with in_use := true },
       { p with
           available := rest
           in_use := p.in_use ++ [{ conn with in_use := true }]
           total_requests := p.total_requests + 1
           total_hits := p.total_hits + 1 }) := by
  simp [ConnectionPool.get_connection, hav, hexp, ConnectionPool.create_connection]

lemma ConnectionPool.get_connection_grow (p : ConnectionPool) (now : Nat)
    (hav : p.available = [])
    (hlt : p.in_use.length < p.max_connections) :
    p.get_connection now =
      (Except.ok { id := p.total_created, created_at := now, in_use := true },
       { p with
           in_use := p.in_use ++ [{ id := p.total_created, created_at := now, in_use := true }]
           total_created := p.total_created + 1
           total_requests := p.total_requests + 1
           total_misses := p.total_misses + 1 }) := by
  simp [ConnectionPool.get_connection, hav, hlt, ConnectionPool.create_connection]

lemma ConnectionPool.get_connection_exhausted (p : ConnectionPool) (now : Nat)
    (hav : p.available = [])
    (hge : ¬ p.in_use.length < p.max_connections) :
    p.get_connection now =
      (Except.error PoolError.poolExhausted,
       { p with total_requests := p.total_requests + 1 }) := by
  simp [ConnectionPool.get_connection, hav, hge, ConnectionPool.create_connection]

lemma ConnectionPool.release_connection_not_held (p : ConnectionPool)
    (conn : PooledConnection)
    (hany : p.in_use.any (fun c => c.id = conn.id) = false) :
    p.release_connection conn = p := by
  simp [ConnectionPool.release_connection, hany]

lemma ConnectionPool.release_connection_requeue (p : ConnectionPool)
    (conn : PooledConnection)
    (hany : p.in_use.any (fun c => c.id = conn.id) = true)
    (hroom : ¬ (0 < p.max_connections ∧ p.max_connections ≤ p.available.length)) :
    p.release_connection conn =
      { p with
          in_use := removeFirst p.in_use conn.id
          available := p.available ++ [{ conn with in_use := false }] } := by
  simp [ConnectionPool.release_connection, hany, hroom]

lemma ConnectionPool.release_connection_full (p : ConnectionPool)
    (conn : PooledConnection)
    (hany : p.in_use.any (fun c => c.id = conn.id) = true)
    (hfull : 0 < p.max_connections ∧ p.max_connections ≤ p.available.length) :
    p.release_connection conn =
      { p with
          in_use := removeFirst p.in_use conn.id
          closed := p.closed ++ [conn.id] } := by
  simp [ConnectionPool.release_connection, hany, hfull.1, hfull.2]

lemma ConnectionPool.step_max (p : ConnectionPool) (s : PoolStep) :
    (p.step s).max_connections = p.max_connections := by
  cases s with
  | acquire now =>
      show (p.get_connection now).2.max_connections = p.max_connections
      cases hav : p.available with
      | cons conn rest =>
          cases hexp : conn.is_expired now p.max_age with
          | true => rw [ConnectionPool.get_connection_expired p conn rest now hav hexp]
          | false => rw [ConnectionPool.get_connection_reuse p conn rest now hav hexp]
      | nil =>
          by_cases hlt : p.in_use.length < p.max_connections
          · rw [ConnectionPool.get_connection_grow p now hav hlt]
          · rw [ConnectionPool.get_connection_exhausted p now hav hlt]
  | release conn =>
      show (p.release_connection conn).max_connections = p.max_connections
      cases hany : p.in_use.any (fun c => c.id = conn.id) with
      | false => rw [ConnectionPool.release_connection_not_held p conn hany]
      | true =>
          by_cases hfull : 0 < p.max_connections ∧ p.max_connections ≤ p.available.length
          · rw [ConnectionPool.release_connection_full p conn hany hfull]
          · rw [ConnectionPool.release_connection_requeue p conn hany hfull]

lemma ConnectionPool.step_inv (p : ConnectionPool) (s : PoolStep) (h : p.inv) :
    (p.step s).inv := by
  unfold ConnectionPool.inv at h ⊢
  cases s with
  | acquire now =>
      simp only [ConnectionPool.step]
      cases hav : p.available with
      | cons conn rest =>
          rw [hav] at h
          simp only [List.length_cons] at h
          cases hexp : conn.is_expired now p.max_age with
          | true =>
              rw [ConnectionPool.get_connection_expired p conn rest now hav hexp]
              simp only [List.length_append, List.length_cons, List.length_nil]
              omega
          | false =>
              rw [ConnectionPool.get_connection_reuse p conn rest now hav hexp]
              simp only [List.length_append, List.length_cons, List.length_nil]
              omega
      | nil =>
          by_cases hlt : p.in_use.length < p.max_connections
          · rw [ConnectionPool.get_connection_grow p now hav hlt]
            simp only [List.length_append, List.length_cons, List.length_nil, hav]
            omega
          · rw [ConnectionPool.get_connection_exhausted p now hav hlt]
            simpa using h
  | release conn =>
      simp only [ConnectionPool.step]
      cases hany : p.in_use.any (fun c => c.id = conn.id) with
      | false => rw [ConnectionPool.release_connection_not_held p conn hany]; exact h
      | true =>
          have hlen := removeFirst_length_of_any p.in_use conn.id hany
          by_cases hfull : 0 < p.max_connections ∧ p.max_connections ≤ p.available.length
          · rw [ConnectionPool.release_connection_full p conn hany hfull]
            omega
          · rw [ConnectionPool.release_connection_requeue p conn hany hfull]
            simp only [List.length_append, List.length_cons, List.length_nil]
            omega

lemma ConnectionPool.run_inv (steps : List PoolStep) (p : ConnectionPool) (h : p.inv) :
    (p.run steps).inv := by
  induction steps generalizing p with
  | nil => simpa [ConnectionPool.run] using h
  | cons s rest ih =>
      have h1 : (p.step s).inv := ConnectionPool.step_inv p s h
      simpa [ConnectionPool.run, List.foldl_cons] using ih (p.step s) h1

lemma ConnectionPool.run_max (steps : List PoolStep) (p : ConnectionPool) :
    (p.run steps).max_connections = p.max_connections := by
  induction steps generalizing p with
  | nil => rfl
  | cons s rest ih =>
      simpa [ConnectionPool.run, List.foldl_cons, ConnectionPool.step_max]
        using (ih (p.step s)).trans (ConnectionPool.step_max p s)

/-- C1: for every sequence of `get_connection` / `release_connection` calls
on a pool freshly constructed with `min_connections ≤ max_connections`, at
every observation point `available + in_use ≤ max_connections`. -/
theorem pool_capacity_invariant (minc maxc max_age now : Nat) (hmin : minc ≤ maxc)
    (steps : List PoolStep) :
    ((ConnectionPool.fresh minc maxc max_age now).run steps).available.length
      + ((ConnectionPool.fresh minc maxc max_age now).run steps).in_use.length ≤ maxc := by
  have h0 : (ConnectionPool.fresh minc maxc max_age now).inv := by
    unfold ConnectionPool.inv ConnectionPool.fresh
    simpa using hmin
  have h1 := ConnectionPool.run_inv steps _ h0
  have h2 := ConnectionPool.run_max steps (ConnectionPool.fresh minc maxc max_age now)
  unfold ConnectionPool.inv at h1
  rw [h2] at h1
  exact h1

/-- Witness for C1 on a concrete pool and trace. -/
theorem pool_capacity_invariant_witness :
    ((ConnectionPool.fresh 1 2 10 0).run
        [PoolStep.acquire 0, PoolStep.acquire 0,
         PoolStep.release { id := 0, created_at := 0, in_use := true },
         PoolStep.acquire 100]).available.length
      + ((ConnectionPool.fresh 1 2 10 0).run
        [PoolStep.acquire 0, PoolStep.acquire 0,
         PoolStep.release { id := 0, created_at := 0, in_use := true },
         PoolStep.acquire 100]).in_use.length ≤ 2 :=
  pool_capacity_invariant 1 2 10 0 (by decide)
    [PoolStep.acquire 0, PoolStep.acquire 0,
     PoolStep.release { id := 0, created_at := 0, in_use := true },
     PoolStep.acquire 100]

/-- C4: when the wait for an available handle times out (sequentially:
`available` is empty), `get_connection` creates a brand-new handle (a miss)
marked busy and appended to `in_use` if the pool is below capacity, and
otherwise fails with the `PoolExhausted` timeout error — a constructor
distinct from any query-execution failure — leaving the pool state
unchanged apart from the request counter (no internal retry). -/
theorem acquire_timeout_spec (p : ConnectionPool) (now : Nat)
    (hav : p.available = []) :
    p.get_connection now =
      if p.available.length + p.in_use.length < p.max_connections then
        (Except.ok { id := p.total_created, created_at := now, in_use := true },
         { p with
             in_use := p.in_use ++ [{ id := p.total_created, created_at := now, in_use := true }]
             total_created := p.total_created + 1
             total_requests := p.total_requests + 1
             total_misses := p.total_misses + 1 })
      else
        (Except.error PoolError.poolExhausted,
         { p with total_requests := p.total_requests + 1 }) := by
  by_cases hlt : p.in_use.length < p.max_connections
  · rw [ConnectionPool.get_connection_grow p now hav hlt, if_pos (by simp [hav, hlt])]
  · rw [ConnectionPool.get_connection_exhausted p now hav hlt, if_neg (by simp [hav, hlt])]

/-- Witness for C4: a concrete empty-queue pool below capacity. -/
theorem acquire_timeout_spec_witness :
    (ConnectionPool.fresh 0 1 10 0).available = [] ∧
    (ConnectionPool.fresh 0 1 10 0).get_connection 5 =
      (Except.ok { id := 0, created_at := 5, in_use := true },
       { min_connections := 0, max_connections := 1, max_age := 10
         available := [], in_use := [{ id := 0, created_at := 5, in_use := true }]
         closed := [], total_created := 1, total_requests := 1
         total_hits := 0, total_misses := 1 }) :=
  ⟨rfl, by simpa using acquire_timeout_spec (ConnectionPool.fresh 0 1 10 0) 5 rfl⟩

/-- C5: when an available handle is obtained within the timeout, an
expired one (`now − created_at > max_age`) is closed (its id enters the
`closed` ledger) and replaced by a freshly created handle with the miss
counter incremented, while a young one is reused with the hit counter
incremented; either way the returned handle is busy and appended to
`in_use`. -/
theorem acquire_expiry_spec (p : ConnectionPool) (conn : PooledConnection)
    (rest : List PooledConnection) (now : Nat)
    (hav : p.available = conn :: rest) :
    p.get_connection now =
      if conn.is_expired now p.max_age then
        (Except.ok { id := p.total_created, created_at := now, in_use := true },
         { p with
             available := rest
             in_use := p.in_use ++ [{ id := p.total_created, created_at := now, in_use := true }]
             closed := p.closed ++ [conn.id]
             total_created := p.total_created + 1
             total_requests := p.total_requests + 1
             total_misses := p.total_misses + 1 })
      else
        (Except.ok { conn with in_use := true },
         { p with
             available := rest
             in_use := p.in_use ++ [{ conn with in_use := true }]
             total_requests := p.total_requests + 1
             total_hits := p.total_hits + 1 }) := by
  cases hexp : conn.is_expired now p.max_age with
  | true =>
      rw [ConnectionPool.get_connection_expired p conn rest now hav hexp]
      simp
  | false =>
      rw [ConnectionPool.get_connection_reuse p conn rest now hav hexp]
      simp

/-- Witness for C5: a one-handle pool whose handle is past `max_age`. -/
theorem acquire_expiry_spec_witness :
    (ConnectionPool.fresh 1 2 10 0).available = [{ id := 0, created_at := 0, in_use := false }] ∧
    (ConnectionPool.fresh 1 2 10 0).get_connection 100 =
      (Except.ok { id := 1, created_at := 100, in_use := true },
       { min_connections := 1, max_connections := 2, max_age := 10
         available := [], in_use := [{ id := 1, created_at := 100, in_use := true }]
         closed := [0], total_created := 2, total_requests := 1
         total_hits := 0, total_misses := 1 }) :=
  ⟨rfl, by
    simpa using acquire_expiry_spec (ConnectionPool.fresh 1 2 10 0)
      ({ id := 0, created_at := 0, in_use := false }) [] 100 rfl⟩

/-- C7: `release_connection` of a handle held in `in_use` removes it from
`in_use` (so `in_use` shrinks by one), clears its busy flag, and re-queues
it on `available` — unless the available queue is already at max capacity,
which for Python's `Queue` means it is full: `0 < max_connections` and the
queue already holds at least `max_connections` handles (a
`Queue(maxsize=0)` is unbounded and never full, so a `max_connections = 0`
pool always re-queues).  Only in that full case is the underlying
connection closed instead of re-queued.  A release of an unheld handle
(double release) is a no-op leaving the state unchanged. -/
theorem release_connection_spec (p : ConnectionPool) (conn : PooledConnection) :
    p.release_connection conn =
      (if p.in_use.any (fun c => c.id = conn.id) then
        if 0 < p.max_connections ∧ p.max_connections ≤ p.available.length then
          { p with
              in_use := removeFirst p.in_use conn.id
              closed := p.closed ++ [conn.id] }
        else
          { p with
              in_use := removeFirst p.in_use conn.id
              available := p.available ++ [{ conn with in_use := false }] }
      else p) ∧
    (p.release_connection conn).in_use.length =
      (if p.in_use.any (fun c => c.id = conn.id) then p.in_use.length - 1
       else p.in_use.length) := by
  cases hany : p.in_use.any (fun c => c.id = conn.id) with
  | false =>
      rw [ConnectionPool.release_connection_not_held p conn hany]
      simp [hany]
  | true =>
      have hlen := removeFirst_length_of_any p.in_use conn.id hany
      by_cases hfull : 0 < p.max_connections ∧ p.max_connections ≤ p.available.length
      · rw [ConnectionPool.release_connection_full p conn hany hfull]
        exact ⟨by simp [hfull.1, hfull.2], by simp; omega⟩
      · rw [ConnectionPool.release_connection_requeue p conn hany hfull]
        exact ⟨by simp [hfull], by simp; omega⟩

/-- C10: `PooledConnection.close` does not close the underlying database
connection — it is exactly `release_connection` on the pool, so the
`closed` ledger grows only when the released handle is held and the
available queue is full in Python's sense (`0 < max_connections` and it
already holds at least `max_connections` handles — never for the
unbounded `max_connections = 0` queue); in the normal path the released
handle re-enters `available` with its busy flag cleared. -/
theorem close_returns_to_pool (p : ConnectionPool) (conn : PooledConnection) :
    conn.close p = p.release_connection conn ∧
    (conn.close p).closed =
      (if p.in_use.any (fun c => c.id = conn.id) = true
          ∧ 0 < p.max_connections ∧ p.max_connections ≤ p.available.length
       then p.closed ++ [conn.id] else p.closed) ∧
    (p.in_use.any (fun c => c.id = conn.id) = true →
      ¬ (0 < p.max_connections ∧ p.max_connections ≤ p.available.length) →
      { conn with in_use := false } ∈ (conn.close p).available) := by
  refine ⟨rfl, ?_, ?_⟩
  · show (p.release_connection conn).closed = _
    cases hany : p.in_use.any (fun c => c.id = conn.id) with
    | false =>
        rw [ConnectionPool.release_connection_not_held p conn hany]
        simp
    | true =>
        by_cases hfull : 0 < p.max_connections ∧ p.max_connections ≤ p.available.length
        · rw [ConnectionPool.release_connection_full p conn hany hfull]
          simp [hfull.1, hfull.2]
        · rw [ConnectionPool.release_connection_requeue p conn hany hfull]
          simp [hfull]
  · intro hany hfull
    show { conn with in_use := false } ∈ (p.release_connection conn).available
    rw [ConnectionPool.release_connection_requeue p conn hany hfull]
    simp

/-- Witness for C10: releasing the only held handle of a concrete pool via
`close` re-queues it with the busy flag cleared and closes nothing. -/
theorem close_returns_to_pool_witness :
    (PooledConnection.close { id := 0, created_at := 0, in_use := true }
      { min_connections := 1, max_connections := 2, max_age := 10
        available := [], in_use := [{ id := 0, created_at := 0, in_use := true }]
        closed := [], total_created := 1, total_requests := 1
        total_hits := 1, total_misses := 0 }).closed = [] ∧
    { id := 0, created_at := 0, in_use := false } ∈
      (PooledConnection.close { id := 0, created_at := 0, in_use := true }
        { min_connections := 1, max_connections := 2, max_age := 10
          available := [], in_use := [{ id := 0, created_at := 0, in_use := true }]
          closed := [], total_created := 1, total_requests := 1
          total_hits := 1, total_misses := 0 }).available :=
  ⟨by
    have h := close_returns_to_pool
      { min_connections := 1, max_connections := 2, max_age := 10
        available := [], in_use := [{ id := 0, created_at := 0, in_use := true }]
        closed := [], total_created := 1, total_requests := 1
        total_hits := 1, total_misses := 0 }
      { id := 0, created_at := 0, in_use := true }
    simpa using h.2.1,
   by
    have h := close_returns_to_pool
      { min_connections := 1, max_connections := 2, max_age := 10
        available := [], in_use := [{ id := 0, created_at := 0, in_use := true }]
        closed := [], total_created := 1, total_requests := 1
        total_hits := 1, total_misses := 0 }
      { id := 0, created_at := 0, in_use := true }
    exact h.2.2 (by decide) (by decide)⟩

/-! ## Query cache (src/caching/query_cache.py)

The Python cache is a dict from the md5 digest of the canonicalised
(query, params) pair to `(timestamp, result)`.  The digest is modelled by
the canonical pair itself (the code relies on md5 being injective on it),
and the insertion-ordered dict by an association list: assignment updates
the first binding in place or appends, deletion drops the binding, and
`min(keys, key=timestamp)` picks the earliest-inserted binding among those
with minimal timestamp, exactly as Python's `min` does. -/

/-- The canonical content hashed by `QueryCache._generate_key`. -/
structure CacheKey where
  query : String
  params : List String
deriving DecidableEq

/-- The whitespace characters removed by Python's `str.strip()`. -/
def isPySpace (c : Char) : Bool :=
  c = ' ' ∨ c = '\t' ∨ c = '\n' ∨ c = '\r' ∨ c = '\x0b' ∨ c = '\x0c'

/-- Embedding of `query.strip()`: drop whitespace from both ends. -/
def pyStrip (s : String) : String :=
  ⟨((s.data.dropWhile isPySpace).reverse.dropWhile isPySpace).reverse⟩

/-- Embedding of `query.lower()`: character-wise lowering (the cached SQL
text is ASCII, where Python's `str.lower` acts character by character). -/
def pyLower (s : String) : String :=
  ⟨s.data.map Char.toLower⟩

/-- Embedding of `QueryCache._generate_key`: normalise the query text
(`strip` then `lower`) and default absent params to the empty sequence. -/
def generate_key (query : String) (params : Option (List String)) : CacheKey :=
  { query := pyLower (pyStrip query), params := params.getD [] }

/-- Embedding of the `QueryCache` state; `α` is the type of cached query
results. -/
structure QueryCache (α : Type) where
  ttl : Nat
  max_size : Nat
  cache : List (CacheKey × Nat × α)
  hits : Nat
  misses : Nat
  evictions : Nat
deriving DecidableEq

/-- The dict `c.cache[k]` lookup. -/
def lookupEntry {α : Type} (l : List (CacheKey × Nat × α)) (k : CacheKey) :
    Option (Nat × α) :=
  match l with
  | [] => none
  | e :: rest => if e.1 = k then some e.2 else lookupEntry rest k

/-- The dict assignment `c.cache[k] = v`: update in place, or append. -/
def setEntry {α : Type} (l : List (CacheKey × Nat × α)) (k : CacheKey) (v : Nat × α) :
    List (CacheKey × Nat × α) :=
  match l with
  | [] => [(k, v)]
  | e :: rest => if e.1 = k then (k, v) :: rest else e :: setEntry rest k v

/-- The dict deletion `del c.cache[k]`. -/
def delEntry {α : Type} (l : List (CacheKey × Nat × α)) (k : CacheKey) :
    List (CacheKey × Nat × α) :=
  match l with
  | [] => []
  | e :: rest => if e.1 = k then rest else e :: delEntry rest k

/-- Embedding of `min(c.cache.keys(), key=lambda k: c.cache[k][0])`
together with the minimal timestamp itself: Python's `min` keeps the
earliest-scanned element among ties, so this is the earliest-inserted
binding of minimal timestamp. -/
def oldestKey {α : Type} : List (CacheKey × Nat × α) → Option (CacheKey × Nat)
  | [] => none
  | e :: rest =>
      match oldestKey rest with
      | none => some (e.1, e.2.1)
      | some mn => if e.2.1 ≤ mn.2 then some (e.1, e.2.1) else mn

/-- The key sequence of the dict. -/
def cacheKeys {α : Type} (l : List (CacheKey × Nat × α)) : List CacheKey :=
  l.map (fun e => e.1)

/-- Embedding of `QueryCache.get`: a fresh hit returns the value and bumps
`hits`; a stale entry (`now − timestamp ≥ ttl`) is deleted and the call
falls through to the miss path; an absent key is a plain miss. -/
def QueryCache.get {α : Type} (c : QueryCache α) (query : String)
    (params : Option (List String)) (now : Nat) : Option α × QueryCache α :=
  let k := generate_key query params
  match lookupEntry c.cache k with
  | some e =>
      if now - e.1 < c.ttl then
        (some e.2, { c with hits := c.hits + 1 })
      else
        (none, { c with cache := delEntry c.cache k, misses := c.misses + 1 })
  | none => (none, { c with misses := c.misses + 1 })

/-- Embedding of `QueryCache.set`: when `len(cache) ≥ max_size` the entry
with minimal timestamp is evicted first (Python's `min` raises
`ValueError` on an empty dict, modelled by `none`), then the new value is
stored under the derived key. -/
def QueryCache.set {α : Type} (c : QueryCache α) (query : String)
    (params : Option (List String)) (result : α) (now : Nat) :
    Option (QueryCache α) :=
  let k := generate_key query params
  if c.cache.length ≥ c.max_size then
    match oldestKey c.cache with
    | none => none
    | some mn =>
        some { c with
                 cache := setEntry (delEntry c.cache mn.1) k (now, result)
                 evictions := c.evictions + 1 }
  else
    some { c with cache := setEntry c.cache k (now, result) }

/-- Embedding of `QueryCache.invalidate`.  Python's `if query:` is false
both for `None` and for the empty string, so an empty-string query clears
the whole dict just like `invalidate()` with no argument. -/
def QueryCache.invalidate {α : Type} (c : QueryCache α) (query : Option String)
    (params : Option (List String)) : QueryCache α :=
  match query with
  | some q =>
      if q.isEmpty then { c with cache := [] }
      else
        let k := generate_key q params
        if (lookupEntry c.cache k).isSome then { c with cache := delEntry c.cache k }
        else c
  | none => { c with cache := [] }

/-- Embedding of `QueryCache.clear`. -/
def QueryCache.clear {α : Type} (c : QueryCache α) : QueryCache α :=
  { c with cache := [], hits := 0, misses := 0, evictions := 0 }

/-- The numeric fields of `QueryCache.get_stats` (the formatted `hit_rate`
string is presentation only and not modelled). -/
structure CacheStats where
  cache_size : Nat
  max_size : Nat
  ttl_seconds : Nat
  hits : Nat
  misses : Nat
  evictions : Nat
  total_requests : Nat
deriving DecidableEq

/-- Embedding of `QueryCache.get_stats`. -/
def QueryCache.get_stats {α : Type} (c : QueryCache α) : CacheStats :=
  { cache_size := c.cache.length
    max_size := c.max_size
    ttl_seconds := c.ttl
    hits := c.hits
    misses := c.misses
    evictions := c.evictions
    total_requests := c.hits + c.misses }

lemma lookupEntry_setEntry_self {α : Type} (l : List (CacheKey × Nat × α))
    (k : CacheKey) (v : Nat × α) :
    lookupEntry (setEntry l k v) k = some v := by
  induction l with
  | nil => simp [setEntry, lookupEntry]
  | cons e rest ih =>
      by_cases he : e.1 = k
      · simp [setEntry, lookupEntry, he]
      · simp [setEntry, lookupEntry, he, ih]

lemma lookupEntry_setEntry_other {α : Type} (l : List (CacheKey × Nat × α))
    (k k' : CacheKey) (v : Nat × α) (hne : k' ≠ k) :
    lookupEntry (setEntry l k v) k' = lookupEntry l k' := by
  have hkk' : ¬ k = k' := fun h => hne h.symm
  induction l with
  | nil => simp [setEntry, lookupEntry, hkk']
  | cons e rest ih =>
      by_cases he : e.1 = k
      · simp [setEntry, lookupEntry, he, hkk']
      · by_cases he' : e.1 = k'
        · simp [setEntry, lookupEntry, he, he', hne]
        · simp [setEntry, lookupEntry, he, he', ih]

lemma lookupEntry_delEntry_other {α : Type} (l : List (CacheKey × Nat × α))
    (k k' : CacheKey) (hne : k' ≠ k) :
    lookupEntry (delEntry l k) k' = lookupEntry l k' := by
  have hkk' : ¬ k = k' := fun h => hne h.symm
  induction l with
  | nil => simp [delEntry]
  | cons e rest ih =>
      by_cases he : e.1 = k
      · simp [delEntry, lookupEntry, he, hkk']
      · by_cases he' : e.1 = k'
        · simp [delEntry, lookupEntry, he, he', hne]
        · simp [delEntry, lookupEntry, he, he', ih]

lemma cacheKeys_nil {α : Type} : cacheKeys ([] : List (CacheKey × Nat × α)) = [] := rfl

lemma cacheKeys_cons {α : Type} (e : CacheKey × Nat × α) (l : List (CacheKey × Nat × α)) :
    cacheKeys (e :: l) = e.1 :: cacheKeys l := rfl

lemma mem_cacheKeys_of_lookup {α : Type} (l : List (CacheKey × Nat × α))
    (k : CacheKey) (e : Nat × α) (h : lookupEntry l k = some e) :
    k ∈ cacheKeys l := by
  induction l with
  | nil => simp [lookupEntry] at h
  | cons hd rest ih =>
      rw [cacheKeys_cons]
      by_cases hk : hd.1 = k
      · rw [hk]
        exact List.mem_cons_self _ _
      · simp only [lookupEntry, if_neg hk] at h
        exact List.mem_cons_of_mem _ (ih h)

lemma lookup_isSome_of_mem_cacheKeys {α : Type} (l : List (CacheKey × Nat × α))
    (k : CacheKey) (h : k ∈ cacheKeys l) :
    (lookupEntry l k).isSome := by
  induction l with
  | nil => simp [cacheKeys_nil] at h
  | cons hd rest ih =>
      by_cases hk : hd.1 = k
      · simp [lookupEntry, hk]
      · rw [cacheKeys_cons] at h
        rcases List.mem_cons.mp h with h | h
        · exact absurd h.symm hk
        · simpa [lookupEntry, hk] using ih h

lemma delEntry_length_of_mem {α : Type} (l : List (CacheKey × Nat × α))
    (k : CacheKey) (h : k ∈ cacheKeys l) :
    (delEntry l k).length + 1 = l.length := by
  induction l with
  | nil => simp [cacheKeys_nil] at h
  | cons hd rest ih =>
      by_cases hk : hd.1 = k
      · simp [delEntry, hk]
      · rw [cacheKeys_cons] at h
        rcases List.mem_cons.mp h with h | h
        · exact absurd h.symm hk
        · have h2 := ih h
          simp only [delEntry, if_neg hk, List.length_cons]
          omega

lemma setEntry_length_le {α : Type} (l : List (CacheKey × Nat × α))
    (k : CacheKey) (v : Nat × α) :
    (setEntry l k v).length ≤ l.length + 1 := by
  induction l with
  | nil => simp [setEntry]
  | cons e rest ih =>
      by_cases he : e.1 = k
      · simp [setEntry, he]
      · simp only [setEntry, if_neg he, List.length_cons]
        omega

lemma setEntry_length_not_mem {α : Type} (l : List (CacheKey × Nat × α))
    (k : CacheKey) (v : Nat × α) (h : k ∉ cacheKeys l) :
    (setEntry l k v).length = l.length + 1 := by
  induction l with
  | nil => simp [setEntry]
  | cons e rest ih =>
      rw [cacheKeys_cons] at h
      have h1 : ¬ e.1 = k := fun hc => h (by rw [hc]; exact List.mem_cons_self _ _)
      have h2 : k ∉ cacheKeys rest := fun hc => h (List.mem_cons_of_mem _ hc)
      simp only [setEntry, if_neg h1, List.length_cons, ih h2]

lemma cacheKeys_setEntry_mem {α : Type} (l : List (CacheKey × Nat × α))
    (k : CacheKey) (v : Nat × α) (h : k ∈ cacheKeys l) :
    cacheKeys (setEntry l k v) = cacheKeys l := by
  induction l with
  | nil => simp [cacheKeys_nil] at h
  | cons e rest ih =>
      by_cases he : e.1 = k
      · simp [setEntry, if_pos he, cacheKeys_cons, he]
      · rw [cacheKeys_cons] at h
        rcases List.mem_cons.mp h with h | h
        · exact absurd h.symm he
        · simp only [setEntry, if_neg he]
          rw [cacheKeys_cons, cacheKeys_cons, ih h]

lemma cacheKeys_setEntry_not_mem {α : Type} (l : List (CacheKey × Nat × α))
    (k : CacheKey) (v : Nat × α) (h : k ∉ cacheKeys l) :
    cacheKeys (setEntry l k v) = cacheKeys l ++ [k] := by
  induction l with
  | nil => simp [setEntry, cacheKeys]
  | cons e rest ih =>
      rw [cacheKeys_cons] at h
      have h1 : ¬ e.1 = k := fun hc => h (by rw [hc]; exact List.mem_cons_self _ _)
      have h2 : k ∉ cacheKeys rest := fun hc => h (List.mem_cons_of_mem _ hc)
      simp only [setEntry, if_neg h1, cacheKeys_cons, ih h2, List.cons_append]

lemma cacheKeys_delEntry_subset {α : Type} (l : List (CacheKey × Nat × α))
    (k : CacheKey) :
    ∀ k' ∈ cacheKeys (delEntry l k), k' ∈ cacheKeys l := by
  induction l with
  | nil =>
      intro k' h
      simp [delEntry, cacheKeys_nil] at h
  | cons e rest ih =>
      intro k' h
      rw [cacheKeys_cons]
      by_cases he : e.1 = k
      · simp only [delEntry, if_pos he] at h
        exact List.mem_cons_of_mem _ h
      · simp only [delEntry, if_neg he, cacheKeys_cons] at h
        rcases List.mem_cons.mp h with h | h
        · rw [h]
          exact List.mem_cons_self _ _
        · exact List.mem_cons_of_mem _ (ih k' h)

lemma oldestKey_spec {α : Type} (l : List (CacheKey × Nat × α)) (hne : l ≠ []) :
    ∃ mn, oldestKey l = some mn ∧ (∃ w, (mn.1, mn.2, w) ∈ l) ∧
      ∀ e ∈ l, mn.2 ≤ e.2.1 := by
  induction l with
  | nil => exact absurd rfl hne
  | cons e rest ih =>
      by_cases hrne : rest = []
      · subst hrne
        refine ⟨(e.1, e.2.1), by simp [oldestKey], ⟨e.2.2, List.mem_cons_self _ _⟩, ?_⟩
        intro x hx
        rcases List.mem_cons.mp hx with hx | hx
        · rw [hx]
        · simp at hx
      · obtain ⟨mn, hmn, ⟨w, hw⟩, hmin⟩ := ih hrne
        by_cases hle : e.2.1 ≤ mn.2
        · refine ⟨(e.1, e.2.1), ?_, ⟨e.2.2, List.mem_cons_self _ _⟩, ?_⟩
          · simp only [oldestKey, hmn, if_pos hle]
          · intro x hx
            rcases List.mem_cons.mp hx with hx | hx
            · rw [hx]
            · exact le_trans hle (hmin x hx)
        · refine ⟨mn, ?_, ⟨w, List.mem_cons_of_mem _ hw⟩, ?_⟩
          · simp only [oldestKey, hmn, if_neg hle]
          · intro x hx
            rcases List.mem_cons.mp hx with hx | hx
            · rw [hx]
              omega
            · exact hmin x hx

/-- Embedding of `QueryCache.__init__`: an empty cache with the given
`ttl` and `max_size` and zeroed counters. -/
def QueryCache.empty (α : Type) (ttl max_size : Nat) : QueryCache α :=
  { ttl := ttl, max_size := max_size, cache := [], hits := 0, misses := 0, evictions := 0 }

lemma QueryCache.set_fields {α : Type} (c : QueryCache α) (q : String)
    (p : Option (List String)) (v : α) (now : Nat) (c' : QueryCache α)
    (hset : c.set q p v now = some c') :
    c'.ttl = c.ttl ∧ c'.max_size = c.max_size ∧ c'.hits = c.hits ∧ c'.misses = c.misses ∧
    lookupEntry c'.cache (generate_key q p) = some (now, v) := by
  simp only [QueryCache.set] at hset
  split at hset
  · cases hmn : oldestKey c.cache with
    | none =>
        rw [hmn] at hset
        simp at hset
    | some mn =>
        rw [hmn] at hset
        simp only [Option.some.injEq] at hset
        subst hset
        exact ⟨rfl, rfl, rfl, rfl, lookupEntry_setEntry_self _ _ _⟩
  · simp only [Option.some.injEq] at hset
    subst hset
    exact ⟨rfl, rfl, rfl, rfl, lookupEntry_setEntry_self _ _ _⟩

/-- C3: after `set(q, p, v)` at time `t`, `get(q, p)` at time `now`
returns `v` and counts a hit while `now − t < ttl`; once `ttl ≤ now − t`
it deletes the entry (the `get_stats` cache size drops by one), counts a
miss and returns absent; and `get` on a key that was never set counts a
miss and returns absent. -/
theorem cache_set_get_spec {α : Type} (c : QueryCache α) (q : String)
    (p : Option (List String)) (v : α) (t now : Nat) (c' : QueryCache α)
    (hset : c.set q p v t = some c') :
    (now - t < c.ttl →
       c'.get q p now = (some v, { c' with hits := c'.hits + 1 })) ∧
    (c.ttl ≤ now - t →
       (c'.get q p now).1 = none ∧
       (c'.get q p now).2.misses = c'.misses + 1 ∧
       (c'.get q p now).2.cache = delEntry c'.cache (generate_key q p) ∧
       ((c'.get q p now).2.get_stats).cache_size + 1 = (c'.get_stats).cache_size) ∧
    (∀ q2 : String, ∀ p2 : Option (List String),
       lookupEntry c.cache (generate_key q2 p2) = none →
       c.get q2 p2 now = (none, { c with misses := c.misses + 1 })) := by
  obtain ⟨httl, -, -, -, hlook⟩ := QueryCache.set_fields c q p v t c' hset
  refine ⟨?_, ?_, ?_⟩
  · intro hfresh
    simp only [QueryCache.get, hlook]
    rw [if_pos (by omega)]
  · intro hstale
    have hmem : generate_key q p ∈ cacheKeys c'.cache :=
      mem_cacheKeys_of_lookup _ _ _ hlook
    have hdel := delEntry_length_of_mem c'.cache (generate_key q p) hmem
    simp only [QueryCache.get, hlook]
    rw [if_neg (by omega)]
    refine ⟨rfl, rfl, rfl, ?_⟩
    simpa [QueryCache.get_stats] using hdel
  · intro q2 p2 hnone
    simp only [QueryCache.get, hnone]

/-! Concrete query strings used by witnesses and counterexamples. -/

def qA : String := "a"

def qB : String := "b"

def emptyQuery : String := ""

def cW3 : QueryCache Nat :=
  { ttl := 10, max_size := 2, cache := [(generate_key qA none, 0, 3)],
    hits := 0, misses := 0, evictions := 0 }

/-- Witness for C3: a concrete set followed by a fresh get. -/
theorem cache_set_get_spec_witness :
    (QueryCache.empty Nat 10 2).set qA none 3 0 = some cW3 ∧
    5 - 0 < (QueryCache.empty Nat 10 2).ttl ∧
    cW3.get qA none 5 = (some 3, { cW3 with hits := cW3.hits + 1 }) :=
  ⟨by decide, by decide,
    (cache_set_get_spec (QueryCache.empty Nat 10 2) qA none 3 0 5 cW3
      (by decide)).1 (by decide)⟩

/-- A zero-capacity cache, which claim C2 quantifies over as well. -/
def zeroCapCache : QueryCache Nat :=
  { ttl := 300, max_size := 0, cache := [], hits := 0, misses := 0, evictions := 0 }

/-- C2 counterexample: on a cache constructed with `max_size = 0`, the
very first `set` finds `len(cache) = 0 ≥ max_size` and runs the eviction
scan `min(cache.keys(), ...)` on an empty dict, which raises `ValueError`
(modelled by `none`): no entry is evicted, nothing is inserted, and the
eviction counter does not increment — contradicting the claim that such a
call evicts exactly one minimal-timestamp entry and then inserts. -/
theorem set_eviction_counterexample :
    zeroCapCache.max_size ≤ zeroCapCache.cache.length ∧
    zeroCapCache.set qA none 7 1 = none :=
  ⟨by decide, by decide⟩

/-- One `set` call: query, params, result, wall-clock time. -/
abbrev SetOp (α : Type) := String × Option (List String) × α × Nat

/-- The cache key a `set` call derives. -/
def opKey {α : Type} (op : SetOp α) : CacheKey := generate_key op.1 op.2.1

/-- A sequence of `set` calls, propagating the `ValueError` state. -/
def setRun {α : Type} (c : QueryCache α) : List (SetOp α) → Option (QueryCache α)
  | [] => some c
  | op :: ops =>
      match c.set op.1 op.2.1 op.2.2.1 op.2.2.2 with
      | none => none
      | some c1 => setRun c1 ops

lemma setRun_distinct {α : Type} (m : Nat) (hm : 0 < m) :
    ∀ (ops : List (SetOp α)) (c : QueryCache α),
      c.max_size = m →
      c.cache.length ≤ m →
      (ops.map opKey).Nodup →
      (∀ k ∈ ops.map opKey, k ∉ cacheKeys c.cache) →
      ∃ c', setRun c ops = some c' ∧
        c'.max_size = m ∧
        c'.cache.length = min (c.cache.length + ops.length) m ∧
        c'.evictions = c.evictions
          + (c.cache.length + ops.length - min (c.cache.length + ops.length) m) ∧
        ∀ k ∈ cacheKeys c'.cache, k ∈ cacheKeys c.cache ∨ k ∈ ops.map opKey := by
  intro ops
  induction ops with
  | nil =>
      intro c hmax hlen _ _
      refine ⟨c, rfl, hmax, ?_, ?_, fun k hk => Or.inl hk⟩
      · simp only [List.length_nil]
        omega
      · simp only [List.length_nil]
        omega
  | cons op ops ih =>
      intro c hmax hlen hnodup hfreshk
      have hk1 : opKey op ∉ cacheKeys c.cache :=
        hfreshk _ (by rw [List.map_cons]; exact List.mem_cons_self _ _)
      have hnodup' : (ops.map opKey).Nodup := (List.nodup_cons.mp hnodup).2
      have hhead : opKey op ∉ ops.map opKey := (List.nodup_cons.mp hnodup).1
      by_cases hfull : c.cache.length < m
      · -- below capacity: plain insert of a fresh key
        have hset : c.set op.1 op.2.1 op.2.2.1 op.2.2.2 =
            some { c with cache := setEntry c.cache (opKey op) (op.2.2.2, op.2.2.1) } := by
          simp only [QueryCache.set]
          rw [if_neg (by omega)]
          exact rfl
        have hkeys1 := cacheKeys_setEntry_not_mem c.cache (opKey op) (op.2.2.2, op.2.2.1) hk1
        have hlen1 := setEntry_length_not_mem c.cache (opKey op) (op.2.2.2, op.2.2.1) hk1
        obtain ⟨c', hrun, hmax', hlen', hev', hkeys'⟩ :=
          ih { c with cache := setEntry c.cache (opKey op) (op.2.2.2, op.2.2.1) }
            hmax
            (by
              show (setEntry c.cache (opKey op) (op.2.2.2, op.2.2.1)).length ≤ m
              rw [hlen1]
              omega)
            hnodup'
            (by
              intro k hk hmem
              have hmem' : k ∈ cacheKeys (setEntry c.cache (opKey op) (op.2.2.2, op.2.2.1)) :=
                hmem
              rw [hkeys1] at hmem'
              rcases List.mem_append.mp hmem' with hmem' | hmem'
              · exact hfreshk k (List.mem_cons_of_mem _ hk) hmem'
              · rw [List.mem_singleton.mp hmem'] at hk
                exact hhead hk)
        have hstep : ({ c with cache := setEntry c.cache (opKey op) (op.2.2.2, op.2.2.1) } :
            QueryCache α).cache.length = c.cache.length + 1 := hlen1
        have hevstep : ({ c with cache := setEntry c.cache (opKey op) (op.2.2.2, op.2.2.1) } :
            QueryCache α).evictions = c.evictions := rfl
        refine ⟨c', ?_, hmax', ?_, ?_, ?_⟩
        · simp only [setRun, hset]
          exact hrun
        · simp only [List.length_cons]
          omega
        · simp only [List.length_cons]
          omega
        · intro k hk
          rcases hkeys' k hk with hk' | hk'
          · have hk'2 : k ∈ cacheKeys (setEntry c.cache (opKey op) (op.2.2.2, op.2.2.1)) := hk'
            rw [hkeys1] at hk'2
            rcases List.mem_append.mp hk'2 with hk'2 | hk'2
            · exact Or.inl hk'2
            · refine Or.inr ?_
              rw [List.map_cons, List.mem_singleton.mp hk'2]
              exact List.mem_cons_self _ _
          · refine Or.inr ?_
            rw [List.map_cons]
            exact List.mem_cons_of_mem _ hk'
      · -- at capacity: evict the minimal-timestamp binding, then insert
        have hlenm : c.cache.length = m := by omega
        have hnil : c.cache ≠ [] := by
          intro hcon
          rw [hcon] at hlenm
          simp at hlenm
          omega
        obtain ⟨mn, hmn, ⟨w, hw⟩, hmin⟩ := oldestKey_spec c.cache hnil
        have hmnmem : mn.1 ∈ cacheKeys c.cache := List.mem_map_of_mem (fun e => e.1) hw
        have hdel := delEntry_length_of_mem c.cache mn.1 hmnmem
        have hk1' : opKey op ∉ cacheKeys (delEntry c.cache mn.1) := by
          intro hcon
          exact hk1 (cacheKeys_delEntry_subset c.cache mn.1 _ hcon)
        have hset : c.set op.1 op.2.1 op.2.2.1 op.2.2.2 =
            some { c with
                     cache := setEntry (delEntry c.cache mn.1) (opKey op)
                       (op.2.2.2, op.2.2.1)
                     evictions := c.evictions + 1 } := by
          simp only [QueryCache.set]
          rw [if_pos (by omega), hmn]
          exact rfl
        have hkeys1 := cacheKeys_setEntry_not_mem (delEntry c.cache mn.1) (opKey op)
          (op.2.2.2, op.2.2.1) hk1'
        have hlen1 := setEntry_length_not_mem (delEntry c.cache mn.1) (opKey op)
          (op.2.2.2, op.2.2.1) hk1'
        obtain ⟨c', hrun, hmax', hlen', hev', hkeys'⟩ :=
          ih { c with
                 cache := setEntry (delEntry c.cache mn.1) (opKey op) (op.2.2.2, op.2.2.1)
                 evictions := c.evictions + 1 }
            hmax
            (by
              show (setEntry (delEntry c.cache mn.1) (opKey op) (op.2.2.2, op.2.2.1)).length ≤ m
              rw [hlen1]
              omega)
            hnodup'
            (by
              intro k hk hmem
              have hmem' : k ∈ cacheKeys
                  (setEntry (delEntry c.cache mn.1) (opKey op) (op.2.2.2, op.2.2.1)) := hmem
              rw [hkeys1] at hmem'
              rcases List.mem_append.mp hmem' with hmem' | hmem'
              · exact hfreshk k (List.mem_cons_of_mem _ hk)
                  (cacheKeys_delEntry_subset c.cache mn.1 _ hmem')
              · rw [List.mem_singleton.mp hmem'] at hk
                exact hhead hk)
        have hstep : ({ c with
            cache := setEntry (delEntry c.cache mn.1) (opKey op) (op.2.2.2, op.2.2.1)
            evictions := c.evictions + 1 } :
            QueryCache α).cache.length = (delEntry c.cache mn.1).length + 1 := hlen1
        have hevstep : ({ c with
            cache := setEntry (delEntry c.cache mn.1) (opKey op) (op.2.2.2, op.2.2.1)
            evictions := c.evictions + 1 } :
            QueryCache α).evictions = c.evictions + 1 := rfl
        refine ⟨c', ?_, hmax', ?_, ?_, ?_⟩
        · simp only [setRun, hset]
          exact hrun
        · simp only [List.length_cons]
          omega
        · simp only [List.length_cons]
          omega
        · intro k hk
          rcases hkeys' k hk with hk' | hk'
          · have hk'2 : k ∈ cacheKeys
                (setEntry (delEntry c.cache mn.1) (opKey op) (op.2.2.2, op.2.2.1)) := hk'
            rw [hkeys1] at hk'2
            rcases List.mem_append.mp hk'2 with hk'2 | hk'2
            · exact Or.inl (cacheKeys_delEntry_subset c.cache mn.1 _ hk'2)
            · refine Or.inr ?_
              rw [List.map_cons, List.mem_singleton.mp hk'2]
              exact List.mem_cons_self _ _
          · refine Or.inr ?_
            rw [List.map_cons]
            exact List.mem_cons_of_mem _ hk'

/-- C2 (amended): provided `max_size ≥ 1`.  A `set` that finds
`len(cache) ≥ max_size` evicts exactly one entry — one of minimal stored
timestamp — strictly before the insert and increments the eviction counter
by exactly one; every `set` on a cache within capacity keeps it within
capacity; and from an empty cache, any run of `set` calls with
pairwise-distinct derived keys ends with `size = min n max_size` and
`evictions = n − min n max_size` — exactly one eviction per insert past
capacity.  The proviso is forced by `set_eviction_counterexample`: with
`max_size = 0` the eviction scan of the empty dict raises `ValueError`. -/
theorem set_eviction_spec {α : Type} (c : QueryCache α) (q : String)
    (p : Option (List String)) (v : α) (now : Nat) (hpos : 0 < c.max_size) :
    (c.max_size ≤ c.cache.length →
       ∃ mn : CacheKey × Nat, oldestKey c.cache = some mn ∧
         (∃ w, (mn.1, mn.2, w) ∈ c.cache) ∧
         (∀ e ∈ c.cache, mn.2 ≤ e.2.1) ∧
         c.set q p v now = some
           { c with
               cache := setEntry (delEntry c.cache mn.1) (generate_key q p) (now, v)
               evictions := c.evictions + 1 }) ∧
    (∃ c', c.set q p v now = some c' ∧
       c'.evictions = c.evictions + (if c.max_size ≤ c.cache.length then 1 else 0) ∧
       (c.cache.length ≤ c.max_size → c'.cache.length ≤ c.max_size)) ∧
    (∀ ops : List (SetOp α), (ops.map opKey).Nodup →
       ∃ cfin, setRun (QueryCache.empty α c.ttl c.max_size) ops = some cfin ∧
         cfin.cache.length = min ops.length c.max_size ∧
         cfin.evictions = ops.length - min ops.length c.max_size) := by
  have hmain : c.max_size ≤ c.cache.length →
      ∃ mn : CacheKey × Nat, oldestKey c.cache = some mn ∧
        (∃ w, (mn.1, mn.2, w) ∈ c.cache) ∧
        (∀ e ∈ c.cache, mn.2 ≤ e.2.1) ∧
        c.set q p v now = some
          { c with
              cache := setEntry (delEntry c.cache mn.1) (generate_key q p) (now, v)
              evictions := c.evictions + 1 } := by
    intro hge
    have hnil : c.cache ≠ [] := by
      intro hcon
      rw [hcon] at hge
      simp at hge
      omega
    obtain ⟨mn, hmn, hw, hmin⟩ := oldestKey_spec c.cache hnil
    refine ⟨mn, hmn, hw, hmin, ?_⟩
    simp only [QueryCache.set]
    rw [if_pos (by omega), hmn]
  refine ⟨hmain, ?_, ?_⟩
  · by_cases hge : c.max_size ≤ c.cache.length
    · obtain ⟨mn, hmn, ⟨w, hw⟩, hmin, hset⟩ := hmain hge
      have hmnmem : mn.1 ∈ cacheKeys c.cache := List.mem_map_of_mem (fun e => e.1) hw
      have hdel := delEntry_length_of_mem c.cache mn.1 hmnmem
      have hsetlen := setEntry_length_le (delEntry c.cache mn.1) (generate_key q p) (now, v)
      refine ⟨_, hset, ?_, ?_⟩
      · rw [if_pos hge]
      · intro hle
        show (setEntry (delEntry c.cache mn.1) (generate_key q p) (now, v)).length ≤ c.max_size
        omega
    · have hset : c.set q p v now =
          some { c with cache := setEntry c.cache (generate_key q p) (now, v) } := by
        simp only [QueryCache.set]
        rw [if_neg (by omega)]
      have hsetlen := setEntry_length_le c.cache (generate_key q p) (now, v)
      refine ⟨_, hset, ?_, ?_⟩
      · rw [if_neg hge]
        rfl
      · intro hle
        show (setEntry c.cache (generate_key q p) (now, v)).length ≤ c.max_size
        omega
  · intro ops hnodup
    obtain ⟨cfin, hrun, -, hlen, hev, -⟩ :=
      setRun_distinct c.max_size hpos ops (QueryCache.empty α c.ttl c.max_size) rfl
        (by simp [QueryCache.empty]) hnodup
        (by
          intro k hk hmem
          simp [QueryCache.empty, cacheKeys] at hmem)
    refine ⟨cfin, hrun, ?_, ?_⟩
    · simpa [QueryCache.empty] using hlen
    · simpa [QueryCache.empty] using hev

/-- A concrete cache at capacity, for the C2 witness. -/
def fullCache : QueryCache Nat :=
  { ttl := 300, max_size := 1, cache := [(generate_key qA none, 5, 11)],
    hits := 0, misses := 0, evictions := 0 }

/-- Witness for C2 (amended) on a concrete full cache. -/
theorem set_eviction_spec_witness :
    0 < fullCache.max_size ∧ fullCache.max_size ≤ fullCache.cache.length ∧
    ∃ mn : CacheKey × Nat, oldestKey fullCache.cache = some mn ∧
      (∃ w, (mn.1, mn.2, w) ∈ fullCache.cache) ∧
      (∀ e ∈ fullCache.cache, mn.2 ≤ e.2.1) ∧
      fullCache.set qB none 7 9 = some
        { fullCache with
            cache := setEntry (delEntry fullCache.cache mn.1) (generate_key qB none) (9, 7)
            evictions := fullCache.evictions + 1 } :=
  ⟨by decide, by decide,
    (set_eviction_spec fullCache qB none 7 9 (by decide)).1 (by decide)⟩

/-- A full one-slot cache already holding the key under overwrite. -/
def overwriteCache : QueryCache Nat :=
  { ttl := 300, max_size := 1, cache := [(generate_key qA none, 0, 5)],
    hits := 0, misses := 0, evictions := 0 }

/-- C6 counterexample: the code checks `len(cache) ≥ max_size` before it
looks at the key, so overwriting a key that is already present in a cache
at capacity does run the eviction branch: here the eviction counter moves
from 0 to 1 even though the set merely overwrites the sole existing
entry — contradicting "overwrites ... without counting an eviction: the
eviction counter is unchanged". -/
theorem overwrite_eviction_counterexample :
    (lookupEntry overwriteCache.cache (generate_key qA none)).isSome ∧
    overwriteCache.evictions = 0 ∧
    (overwriteCache.set qA none 7 3).map QueryCache.evictions = some 1 :=
  ⟨by decide, by decide, by decide⟩

/-- C6 (amended): restricted to caches strictly below capacity.  There,
setting a key already present overwrites its entry in place without an
eviction: the eviction counter is unchanged (the result record keeps
`c.evictions`), the key sequence is unchanged, every other key's entry is
untouched, and the key now maps to the new value. -/
theorem overwrite_no_eviction {α : Type} (c : QueryCache α) (q : String)
    (p : Option (List String)) (v : α) (now : Nat)
    (hmem : generate_key q p ∈ cacheKeys c.cache)
    (hroom : c.cache.length < c.max_size) :
    c.set q p v now =
      some { c with cache := setEntry c.cache (generate_key q p) (now, v) } ∧
    cacheKeys (setEntry c.cache (generate_key q p) (now, v)) = cacheKeys c.cache ∧
    (∀ k', k' ≠ generate_key q p →
       lookupEntry (setEntry c.cache (generate_key q p) (now, v)) k'
         = lookupEntry c.cache k') ∧
    lookupEntry (setEntry c.cache (generate_key q p) (now, v)) (generate_key q p)
      = some (now, v) := by
  refine ⟨?_, cacheKeys_setEntry_mem _ _ _ hmem, ?_, lookupEntry_setEntry_self _ _ _⟩
  · simp only [QueryCache.set]
    rw [if_neg (by omega)]
  · intro k' hk'
    exact lookupEntry_setEntry_other _ _ _ _ hk'

/-- A cache with one entry and spare capacity, for the C6 witness. -/
def roomyCache : QueryCache Nat :=
  { ttl := 300, max_size := 2, cache := [(generate_key qA none, 0, 5)],
    hits := 0, misses := 0, evictions := 0 }

/-- Witness for C6 (amended) on a concrete overwrite below capacity. -/
theorem overwrite_no_eviction_witness :
    generate_key qA none ∈ cacheKeys roomyCache.cache ∧
    roomyCache.cache.length < roomyCache.max_size ∧
    roomyCache.set qA none 7 3 =
      some { roomyCache with cache := setEntry roomyCache.cache (generate_key qA none) (3, 7) } :=
  ⟨by decide, by decide,
    (overwrite_no_eviction roomyCache qA none 7 3 (by decide) (by decide)).1⟩

/-- A cache holding an entry for query `"a"` with nonzero counters. -/
def twoCache : QueryCache Nat :=
  { ttl := 300, max_size := 10, cache := [(generate_key qA none, 0, 5)],
    hits := 3, misses := 4, evictions := 2 }

/-- C8 counterexample: Python's `if query:` is false for the empty string,
so `invalidate("")` falls into the clear-all branch.  Here the key derived
from the empty-string query is absent — by the claim the call should be a
no-op leaving every other entry unchanged — yet it removes the unrelated
entry stored for query `"a"`, emptying the dict. -/
theorem invalidate_empty_query_counterexample :
    lookupEntry twoCache.cache (generate_key emptyQuery none) = none ∧
    (lookupEntry twoCache.cache (generate_key qA none)).isSome ∧
    (twoCache.invalidate (some emptyQuery) none).cache = [] :=
  ⟨by decide, by decide, by decide⟩

/-- C8 (amended): `clear()` empties the entries and zeroes the hit, miss
and eviction counters; `invalidate()` without a query empties the entries
but leaves all three counters unchanged; `invalidate(q)` with a NON-EMPTY
query removes only the key derived from `q` (a no-op if absent), leaving
every other entry and all counters unchanged; and `invalidate` with the
empty-string query behaves like `invalidate()` without a query. -/
theorem clear_invalidate_spec {α : Type} (c : QueryCache α) (q : String)
    (p p2 : Option (List String)) (hq : q.isEmpty = false) :
    c.clear = { c with cache := [], hits := 0, misses := 0, evictions := 0 } ∧
    c.invalidate none p2 = { c with cache := [] } ∧
    c.invalidate (some emptyQuery) p2 = { c with cache := [] } ∧
    c.invalidate (some q) p =
      (if (lookupEntry c.cache (generate_key q p)).isSome then
         { c with cache := delEntry c.cache (generate_key q p) }
       else c) ∧
    (∀ k', k' ≠ generate_key q p →
       lookupEntry (c.invalidate (some q) p).cache k' = lookupEntry c.cache k') := by
  have hEmptyQ : emptyQuery.isEmpty = true := rfl
  refine ⟨rfl, rfl, ?_, ?_, ?_⟩
  · simp [QueryCache.invalidate, hEmptyQ]
  · simp [QueryCache.invalidate, hq]
  · intro k' hk'
    by_cases hs : (lookupEntry c.cache (generate_key q p)).isSome
    · have heq : c.invalidate (some q) p =
          { c with cache := delEntry c.cache (generate_key q p) } := by
        simp [QueryCache.invalidate, hq, hs]
      rw [heq]
      exact lookupEntry_delEntry_other c.cache (generate_key q p) k' hk'
    · have heq : c.invalidate (some q) p = c := by
        simp [QueryCache.invalidate, hq, hs]
      rw [heq]

/-- Witness for C8 (amended) on a concrete per-key invalidation. -/
theorem clear_invalidate_spec_witness :
    qA.isEmpty = false ∧
    twoCache.invalidate (some qA) none =
      (if (lookupEntry twoCache.cache (generate_key qA none)).isSome then
         { twoCache with cache := delEntry twoCache.cache (generate_key qA none) }
       else twoCache) :=
  ⟨by decide, (clear_invalidate_spec twoCache qA none none (by decide)).2.2.2.1⟩

/-! ## Query analyzer (src/query/query_analyzer.py)

The actual execution of the SQL and the wall clock are external: the
measured `execution_time`, the number of rows returned and the timestamp
enter `analyze_query` as parameters (rationals model the float seconds;
only ordered comparison against the threshold and the zero constants of
the empty-history stats matter to the claims).  The best-effort query plan
is diagnostic only and not modelled. -/

/-- The analysis record appended to the history (the `analysis` dict). -/
structure QueryRecord where
  query : String
  params : List String
  execution_time : Rat
  rows_returned : Nat
  is_slow : Bool
  timestamp : Rat
deriving DecidableEq

/-- Embedding of the `QueryAnalyzer` state. -/
structure QueryAnalyzer where
  slow_query_threshold : Rat
  query_history : List QueryRecord
  slow_queries : List QueryRecord
deriving DecidableEq

/-- Embedding of `QueryAnalyzer.analyze_query`: build the record with
`is_slow = (execution_time > threshold)`, append it to the history, and
additionally append it to the slow list when `is_slow`. -/
def QueryAnalyzer.analyze_query (a : QueryAnalyzer) (query : String)
    (params : List String) (execution_time : Rat) (rows_returned : Nat)
    (now : Rat) : QueryRecord × QueryAnalyzer :=
  let analysis : QueryRecord :=
    { query := query, params := params, execution_time := execution_time
      rows_returned := rows_returned
      is_slow := decide (execution_time > a.slow_query_threshold)
      timestamp := now }
  let a1 := { a with query_history := a.query_history ++ [analysis] }
  let a2 :=
    if analysis.is_slow then { a1 with slow_queries := a1.slow_queries ++ [analysis] }
    else a1
  (analysis, a2)

/-- The result of `get_query_stats`.  The Python function returns a dict;
`slow_query_percentage` is an `Option` because the dict built for an empty
history has no such key. -/
structure QueryStats where
  total_queries : Nat
  slow_queries : Nat
  slow_query_percentage : Option Rat
  avg_execution_time : Rat
  min_execution_time : Rat
  max_execution_time : Rat
deriving DecidableEq

/-- Python's `min` over a nonempty list of floats (0 unused default). -/
def listMinR : List Rat → Rat
  | [] => 0
  | t :: ts => ts.foldl min t

/-- Python's `max` over a nonempty list of floats (0 unused default). -/
def listMaxR : List Rat → Rat
  | [] => 0
  | t :: ts => ts.foldl max t

/-- Embedding of `QueryAnalyzer.get_query_stats`. -/
def QueryAnalyzer.get_query_stats (a : QueryAnalyzer) : QueryStats :=
  match a.query_history with
  | [] =>
      { total_queries := 0, slow_queries := 0, slow_query_percentage := none
        avg_execution_time := 0, min_execution_time := 0, max_execution_time := 0 }
  | _ :: _ =>
      let times := a.query_history.map (fun r => r.execution_time)
      { total_queries := a.query_history.length
        slow_queries := a.slow_queries.length
        slow_query_percentage :=
          some ((a.slow_queries.length : Rat) / (a.query_history.length : Rat) * 100)
        avg_execution_time := times.foldl (fun x y => x + y) 0 / (times.length : Rat)
        min_execution_time := listMinR times
        max_execution_time := listMaxR times }

/-- A freshly constructed analyzer with the default 1-second threshold. -/
def emptyAnalyzer : QueryAnalyzer :=
  { slow_query_threshold := 1, query_history := [], slow_queries := [] }

/-- C9 counterexample: on an empty history `get_query_stats` returns the
dict `{'total_queries': 0, 'slow_queries': 0, 'avg_execution_time': 0,
'min_execution_time': 0, 'max_execution_time': 0}` — it contains NO
`slow_query_percentage` key (reading it raises `KeyError`), contradicting
the claim that the all-zero structure contains the slow-percentage field. -/
theorem empty_stats_counterexample :
    emptyAnalyzer.query_history = [] ∧
    emptyAnalyzer.get_query_stats.slow_query_percentage = none :=
  ⟨rfl, rfl⟩

/-- C9 (amended): every `analyze_query` appends exactly one record to the
history; that record carries `is_slow = (execution_time > threshold)` and
is additionally appended to the slow list exactly when its execution time
strictly exceeds the threshold; and `get_query_stats` on an empty history
returns the all-zero structure — count, slow count and average/min/max
execution times all zero, with no division by zero — but omits the slow
percentage field. -/
theorem analyzer_record_spec (a : QueryAnalyzer) (q : String) (ps : List String)
    (execTime now : Rat) (rows : Nat) (th : Rat) :
    (a.analyze_query q ps execTime rows now).2.query_history
      = a.query_history ++ [(a.analyze_query q ps execTime rows now).1] ∧
    (a.analyze_query q ps execTime rows now).1.is_slow
      = decide (execTime > a.slow_query_threshold) ∧
    (a.analyze_query q ps execTime rows now).2.slow_queries
      = a.slow_queries
        ++ (if execTime > a.slow_query_threshold
            then [(a.analyze_query q ps execTime rows now).1] else []) ∧
    (QueryAnalyzer.mk th [] []).get_query_stats
      = { total_queries := 0, slow_queries := 0, slow_query_percentage := none
          avg_execution_time := 0, min_execution_time := 0, max_execution_time := 0 } := by
  by_cases hslow : execTime > a.slow_query_threshold
  · refine ⟨?_, ?_, ?_, rfl⟩ <;>
      simp [QueryAnalyzer.analyze_query, hslow]
  · refine ⟨?_, ?_, ?_, rfl⟩ <;>
      simp [QueryAnalyzer.analyze_query, hslow]

end DBOpt
